import Mathlib

/-!
Verification of the issue-from-pytest-log-action repository.

This file gives a shallow embedding, in Lean 4, of the pure core of the
repository's Python modules:

* `src/issue_from_pytest_log_action/parse_logs.py` — ANSI control-sequence
  stripping, node-id parsing, the failure-report compressor and its
  cascading strategies, and the collection-error bypass of `main`;
* `src/issue_from_pytest_log_action/capture_versions.py` — the git-hash
  heuristic over version strings;
* `track_packages.py` — the bisection resolver, the package-version diff
  engine, and snapshot creation.

Python strings are modelled as Lean `String`/`List Char` (sequences of
unicode code points), Python `None`-able values as `Option`, Python dicts
as association lists looked up by key, and Python exceptions as `Except`.
Each definition is translated from the corresponding source function and
keeps its name where Lean allows it.
-/

/-! ## ANSI escape stripping (`parse_logs.py`, `strip_ansi`)

The source builds the regex
`\x1B (?: \[ [\x30-\x3f]* [\x20-\x2f]* [\x40-\x7e] | [\x40-\x5f] )`
and substitutes every match by the empty string, scanning left to right.
The three CSI byte classes (parameters, intermediates, final) are pairwise
disjoint, so the regex engine's greedy scan through them never needs to
backtrack: a CSI attempt succeeds exactly when a final byte follows the
parameter and intermediate runs.  When the CSI alternative fails after
`ESC [`, the second alternative still matches the single byte `[`
(`0x5b ∈ [0x40-0x5f]`), so `ESC [` is consumed on its own. -/

def isParameterByte (c : Char) : Bool :=
  decide (0x30 ≤ c.toNat) && decide (c.toNat ≤ 0x3f)

def isIntermediateByte (c : Char) : Bool :=
  decide (0x20 ≤ c.toNat) && decide (c.toNat ≤ 0x2f)

def isFinalByte (c : Char) : Bool :=
  decide (0x40 ≤ c.toNat) && decide (c.toNat ≤ 0x7e)

def isFeByte (c : Char) : Bool :=
  decide (0x40 ≤ c.toNat) && decide (c.toNat ≤ 0x5f)

/-- One match attempt of the regex body at the position right after an ESC
character: returns the remainder of the input after the match, or `none`
when neither alternative matches. -/
def matchSeq : List Char → Option (List Char)
  | [] => none
  | c :: rest =>
    if c = '[' then
      match (rest.dropWhile isParameterByte).dropWhile isIntermediateByte with
      | f :: r4 => if isFinalByte f then some r4 else some rest
      | [] => some rest
    else if isFeByte c then some rest else none

/-- A match consumes at least the character after the ESC.  (Stated here,
before the theorems section, because `stripAnsiAux`'s termination
argument needs it.) -/
theorem matchSeq_length_le (l r : List Char) (h : matchSeq l = some r) :
    r.length ≤ l.length := by
  match l with
  | [] => simp [matchSeq] at h
  | c :: rest =>
    have hdrop : ((rest.dropWhile isParameterByte).dropWhile isIntermediateByte).length ≤
        rest.length := by
      have h1 : (rest.dropWhile isParameterByte).Sublist rest := List.dropWhile_sublist _
      have h2 : ((rest.dropWhile isParameterByte).dropWhile isIntermediateByte).Sublist
          (rest.dropWhile isParameterByte) := List.dropWhile_sublist _
      exact (h2.trans h1).length_le
    simp only [matchSeq] at h
    split at h
    · split at h
      · rename_i f r4 heq
        split at h
        · cases h
          rw [heq] at hdrop
          simp at hdrop
          simp
          omega
        · cases h; simp
      · cases h; simp
    · split at h
      · cases h; simp
      · cases h

/-- `re.sub` of the escape regex by the empty string: scan left to right; at
each ESC try one match of the regex body and drop the matched characters,
resuming the scan right after the match; characters at which no match starts
are kept. -/
def stripAnsiAux : List Char → List Char
  | [] => []
  | c :: rest =>
    if c = '\x1b' then
      match hm : matchSeq rest with
      | some r => stripAnsiAux r
      | none => c :: stripAnsiAux rest
    else c :: stripAnsiAux rest
termination_by cs => cs.length
decreasing_by
  · simp only [List.length_cons]
    have := matchSeq_length_le rest r hm
    omega
  · simp
  · simp

/-- `strip_ansi` from `parse_logs.py`: strip all ansi escape sequences. -/
def strip_ansi (msg : String) : String :=
  String.mk (stripAnsiAux msg.data)


/-! ## Node-id parsing (`parse_logs.py`, `parse_nodeid`)

The source compiles
`nodeid_re = (?P<filepath>.+?)::(?P<name>.+?)(?:\[(?P<variant>.+)\])?`
and runs `nodeid_re.fullmatch(nodeid)`, raising
`ValueError(f"unknown test id: {nodeid}")` when there is no match.
`.` does not match a newline; `.+?` is lazy (shortest first, growing on
backtracking); the optional variant group is greedy (tried before being
skipped).  The functions below implement that backtracking search
explicitly: `splitNodeid` grows the lazy `filepath` capture one character
at a time, and at each `::` hands the remainder to `matchNodeidTail`,
which grows the lazy `name` capture, trying the bracketed variant group
(`tryBracket`) before extending `name`, and accepting `name` alone only
at the end of the input. -/

/-- The variant group `\[(?P<variant>.+)\]` matched against the whole
remainder: the remainder must start with `[`, end with `]`, and hold a
nonempty newline-free run in between (the greedy `.+` capture). -/
def tryBracket : List Char → Option (List Char)
  | c :: more =>
    if c = '[' && more.getLast? = some ']' && !more.dropLast.isEmpty
        && more.dropLast.all (· != '\n') then
      some more.dropLast
    else none
  | [] => none

/-- The lazy `name` capture followed by the optional variant group,
matched against the whole remainder after `::`.  `acc` is the reversed
name captured so far. -/
def matchNodeidTail (acc : List Char) : List Char → Option (List Char × Option (List Char))
  | [] => if acc.isEmpty then none else some (acc.reverse, none)
  | c :: rest =>
    if acc.isEmpty then
      if c = '\n' then none else matchNodeidTail [c] rest
    else
      match tryBracket (c :: rest) with
      | some v => some (acc.reverse, some v)
      | none => if c = '\n' then none else matchNodeidTail (c :: acc) rest

/-- The lazy `filepath` capture: scan for the first `::` (growing
`filepath` on failure of the remainder) whose remainder matches
`matchNodeidTail`.  `acc` is the reversed filepath captured so far. -/
def splitNodeid (acc : List Char) :
    List Char → Option (List Char × List Char × Option (List Char))
  | c1 :: c2 :: rest =>
    if c1 = ':' && c2 = ':' && !acc.isEmpty then
      match matchNodeidTail [] rest with
      | some (n, v) => some (acc.reverse, n, v)
      | none => if c1 = '\n' then none else splitNodeid (c1 :: acc) (c2 :: rest)
    else if c1 = '\n' then none else splitNodeid (c1 :: acc) (c2 :: rest)
  | _ => none

/-- The result of `parse_nodeid`: the regex's `groupdict()`.  On success
the `filepath` and `name` captures are always present and nonempty; the
`variant` capture is optional. -/
structure NodeId where
  filepath : String
  name : String
  variant : Option String
deriving DecidableEq, Repr

/-- `parse_nodeid` from `parse_logs.py`: full-match the node-id regex,
raising `ValueError` when the string does not match. -/
def parse_nodeid (nodeid : String) : Except String NodeId :=
  match splitNodeid [] nodeid.data with
  | some (f, n, v) => Except.ok ⟨String.mk f, String.mk n, v.map String.mk⟩
  | none => Except.error ("unknown test id: " ++ nodeid)

/-! ## Failure reports and the report compressor (`parse_logs.py`) -/

/-- How a Python f-string renders an optional string: `None` renders as
the literal text `None`. -/
def pyStr : Option String → String
  | none => "None"
  | some s => s

/-- The `PreformattedReport` dataclass: `{filepath, name, variant,
message}`.  `name` is `None` for the collection-level reports built in
`preformat_report` for a `CollectReport` whose node id has no `::`. -/
structure PreformattedReport where
  filepath : String
  name : Option String
  variant : Option String
  message : String
deriving DecidableEq, Repr

/-- The dataclass constructor: `__post_init__` strips ansi escape
sequences from `message`. -/
def mkPreformattedReport (filepath : String) (name variant : Option String)
    (message : String) : PreformattedReport :=
  ⟨filepath, name, variant, strip_ansi message⟩

/-- `format_summary` from `parse_logs.py`: one summary line per report.
In the first branch the source interpolates `report.name` directly, so a
`None` name would render as the text `None` (`pyStr`). -/
def format_summary (report : PreformattedReport) : String :=
  match report.variant with
  | some v =>
    report.filepath ++ "::" ++ pyStr report.name ++ "[" ++ v ++ "]: " ++ report.message
  | none =>
    match report.name with
    | some name => report.filepath ++ "::" ++ name ++ ": " ++ report.message
    | none => report.filepath ++ ": " ++ report.message

/-- `format_report` from `parse_logs.py`: the dedented outer template
`<details><summary>Python {py_version} Test Summary</summary>` around the
newline-joined summary lines. -/
def format_report (summaries : List String) (py_version : String) : String :=
  "<details><summary>Python " ++ py_version ++ " Test Summary</summary>\n\n```\n"
    ++ String.intercalate "\n" summaries ++ "\n```\n\n</details>\n"

/-- The grouping key used by `merge_variants`:
`(report.filepath, report.name, report.message)`. -/
def reportKey (r : PreformattedReport) : String × Option String × String :=
  (r.filepath, r.name, r.message)

/-- The keys of `more_itertools.bucket(reports, key)` in first-seen
order (the underlying cache is an insertion-ordered dict). -/
def bucketKeys (reports : List PreformattedReport) :
    List (String × Option String × String) :=
  reports.foldl (fun ks r => if reportKey r ∈ ks then ks else ks ++ [reportKey r]) []

/-- The items of one bucket, in their original order. -/
def bucketGroup (reports : List PreformattedReport)
    (k : String × Option String × String) : List PreformattedReport :=
  reports.filter (fun r => reportKey r = k)

/-- The local `format_variant_group` of `merge_variants`: a group of size
other than 1 renders a `[{n} failing variants]` line; a single report
renders with its variant when it has one, else as a plain line.  The
group's name component is interpolated directly by the source
(`None` would render as the text `None`). -/
def format_variant_group (k : String × Option String × String)
    (group : List PreformattedReport) : String :=
  let (filepath, test_name, message) := k
  match group with
  | [report] =>
    match report.variant with
    | some v => filepath ++ "::" ++ pyStr test_name ++ "[" ++ v ++ "]: " ++ message
    | none => filepath ++ "::" ++ pyStr test_name ++ ": " ++ message
  | _ =>
    filepath ++ "::" ++ pyStr test_name ++ "[" ++ toString group.length
      ++ " failing variants]: " ++ message

/-- `merge_variants` from `parse_logs.py`: bucket the reports by
`(filepath, name, message)` and render one line per bucket, in first-seen
bucket order.  The `max_chars` argument is accepted and unused, exactly
as in the source (the caller checks the length). -/
def merge_variants (reports : List PreformattedReport) (max_chars : Nat)
    (py_version : String) : String :=
  let _ := max_chars
  format_report
    ((bucketKeys reports).map (fun k => format_variant_group k (bucketGroup reports k)))
    py_version

/-- The fractions tried by `truncate`, in order, as rationals.  The
source stores them as the floating-point literals
`[0.95, 0.75, 0.5, 0.25, 0.1, 0.01]` and computes
`int(n_reports * fraction)`; for the budget properties proved here only
the shape `reports-prefix plus one trailing line` matters, and the
prefix length is modelled as the rational floor `n * num / den`. -/
def truncate_fractions : List (Nat × Nat) :=
  [(95, 100), (75, 100), (50, 100), (25, 100), (10, 100), (1, 100)]

/-- The `for fraction in fractions` loop of `truncate`: return the first
fraction whose rendering fits, else `None`. -/
def truncateLoop (reports : List PreformattedReport) (max_chars : Nat)
    (py_version : String) : List (Nat × Nat) → Option String
  | [] => none
  | (num, den) :: rest =>
    let n_reports := reports.length
    let n_selected := n_reports * num / den
    let selected_reports := reports.take n_selected
    let report_messages := selected_reports.map format_summary
    let n_rest := n_reports - n_selected
    let summary := report_messages ++ ["+ " ++ toString n_rest ++ " failing tests"]
    let formatted := format_report summary py_version
    if formatted.length ≤ max_chars then some formatted
    else truncateLoop reports max_chars py_version rest

/-- `truncate` from `parse_logs.py`. -/
def truncate (reports : List PreformattedReport) (max_chars : Nat)
    (py_version : String) : Option String :=
  truncateLoop reports max_chars py_version truncate_fractions

/-- `summarize` from `parse_logs.py`: the single `{n} failing tests`
line inside the outer template, with no budget check of its own. -/
def summarize (reports : List PreformattedReport) (py_version : String) : String :=
  format_report [toString reports.length ++ " failing tests"] py_version

/-- `compressed_report` from `parse_logs.py`: try the full listing, then
the strategies `merge_variants` and `truncate` in order, returning the
first rendering that fits `max_chars`; when none fits, fall back to
`summarize` unconditionally. -/
def compressed_report (reports : List PreformattedReport) (max_chars : Nat)
    (py_version : String) : String :=
  let formatted := format_report (reports.map format_summary) py_version
  if formatted.length ≤ max_chars then formatted
  else
    let merged := merge_variants reports max_chars py_version
    if merged.length ≤ max_chars then merged
    else
      match truncate reports max_chars py_version with
      | some truncated =>
        if truncated.length ≤ max_chars then truncated
        else summarize reports py_version
      | none => summarize reports py_version

/-! ## Collection errors and the `main` selection branch (`parse_logs.py`)

`preformat_report` produces either a `PreformattedReport` or a
`CollectionError`; `main` collects those into one list (`preformatted`)
and branches: exactly one element that is a `CollectionError` renders the
fixed collection-error template, anything else goes through
`compressed_report`.  `compressed_report` begins by evaluating
`[format_summary(report) for report in reports]`, and `format_summary`
reads `report.variant`, `report.filepath`, `report.name` — attributes a
`CollectionError` does not have, so a list that reaches the compressor
with a `CollectionError` in it raises `AttributeError` at that first
list comprehension, before any strategy runs. -/

/-- The `CollectionError` dataclass. -/
structure CollectionError where
  name : String
  repr_ : String
deriving DecidableEq, Repr

/-- An element of `main`'s `preformatted` list: the Python list holds
either dataclass, distinguished only by `isinstance`. -/
inductive Report where
  | pre (r : PreformattedReport)
  | collErr (e : CollectionError)
deriving DecidableEq, Repr

/-- The attribute accesses `format_summary` performs on a report:
on a `PreformattedReport` they succeed, on a `CollectionError` the first
access (`report.variant`) raises `AttributeError`. -/
def reportAttrs : Report → Except String PreformattedReport
  | Report.pre r => Except.ok r
  | Report.collErr _ =>
    Except.error "AttributeError: CollectionError object has no attribute variant"

/-- The list comprehension's traversal: evaluate the attribute accesses
left to right, the first `AttributeError` aborting the comprehension. -/
def mapReportAttrs : List Report → Except String (List PreformattedReport)
  | [] => Except.ok []
  | r :: rest =>
    match reportAttrs r with
    | Except.error e => Except.error e
    | Except.ok p =>
      match mapReportAttrs rest with
      | Except.error e => Except.error e
      | Except.ok ps => Except.ok (p :: ps)

/-- `compressed_report` as called on `main`'s mixed `preformatted` list:
the summary list comprehension performs the attribute accesses on every
element first (raising on any `CollectionError`); on an all-report list
the remainder is the pure `compressed_report` above. -/
def compressed_reportE (reports : List Report) (max_chars : Nat)
    (py_version : String) : Except String String :=
  match mapReportAttrs reports with
  | Except.error e => Except.error e
  | Except.ok rs => Except.ok (compressed_report rs max_chars py_version)

/-- `format_collection_error` from `parse_logs.py`: the fixed dedented
collection-error template, with no budget check. -/
def format_collection_error (error : CollectionError) (py_version : String) : String :=
  "<details><summary>Python " ++ py_version ++ " Test Summary</summary>\n\n"
    ++ error.name ++ " failed:\n```\n" ++ error.repr_ ++ "\n```\n\n</details>\n"

/-- The message-selection branch of `main` (`parse_logs.py` lines
276–279), with the budget a parameter (the source passes the constant
65535): exactly one element that is a `CollectionError` bypasses the
compressor, every other list is compressed. -/
def selectMessage (preformatted : List Report) (max_chars : Nat)
    (py_version : String) : Except String String :=
  match preformatted with
  | [Report.collErr e] => Except.ok (format_collection_error e py_version)
  | _ => compressed_reportE preformatted max_chars py_version

/-! ## Git-hash heuristic (`capture_versions.py`,
`extract_git_hash_from_version`)

The source tries, in order, `re.search` with the patterns
`\.g([a-f0-9]{7,40})`, `\+g([a-f0-9]{7,40})`, `g([a-f0-9]{7,40})`, each
with `re.IGNORECASE`, returning `match.group(1)` of the first pattern
that matches anywhere.  `re.search` finds the leftmost starting position
at which the whole pattern matches; the capture `[a-f0-9]{7,40}` is
greedy, so it takes the hex run following the separator, capped at 40
characters, and a run shorter than 7 makes the position fail. -/

/-- Case-insensitive hex digit, as `[a-f0-9]` under `re.IGNORECASE`. -/
def isHexCI (c : Char) : Bool :=
  (decide ('0' ≤ c) && decide (c ≤ '9'))
    || (decide ('a' ≤ c) && decide (c ≤ 'f'))
    || (decide ('A' ≤ c) && decide (c ≤ 'F'))

/-- `g` or `G` (the literal `g` under `re.IGNORECASE`). -/
def isGCI (c : Char) : Bool := c = 'g' || c = 'G'

/-- The greedy capture `([a-f0-9]{7,40})` with nothing after it: the
maximal hex run, capped at 40; fails when shorter than 7. -/
def captureHex (rest : List Char) : Option String :=
  let run := rest.takeWhile isHexCI
  if 7 ≤ run.length then some (String.mk (run.take 40)) else none

/-- One attempt of the pattern `\.g([a-f0-9]{7,40})` at a position. -/
def matchDotG : List Char → Option String
  | c1 :: c2 :: rest => if c1 = '.' && isGCI c2 then captureHex rest else none
  | _ => none

/-- One attempt of the pattern `\+g([a-f0-9]{7,40})` at a position. -/
def matchPlusG : List Char → Option String
  | c1 :: c2 :: rest => if c1 = '+' && isGCI c2 then captureHex rest else none
  | _ => none

/-- One attempt of the pattern `g([a-f0-9]{7,40})` at a position. -/
def matchBareG : List Char → Option String
  | c1 :: rest => if isGCI c1 then captureHex rest else none
  | _ => none

/-- `re.search`: try the position matcher at each suffix, left to
right. -/
def reSearch (m : List Char → Option String) : List Char → Option String
  | [] => m []
  | c :: cs =>
    match m (c :: cs) with
    | some r => some r
    | none => reSearch m cs

/-- `extract_git_hash_from_version` from `capture_versions.py`. -/
def extract_git_hash_from_version (version_string : String) : Option String :=
  match reSearch matchDotG version_string.data with
  | some r => some r
  | none =>
    match reSearch matchPlusG version_string.data with
    | some r => some r
    | none => reSearch matchBareG version_string.data

/-! ## Package info and the version diff engine (`track_packages.py`)

A stored package entry is either a bare version string (legacy) or a
dict `{"version": ..., "git_info": {"git_revision": ...}}` (rich), and a
package can also map to `None`.  The dict accessors are modelled by
`Option`: a missing `"version"` key, a missing `"git_info"` key and a
missing `"git_revision"` key each read as `None`. -/

/-- One package's stored info: a legacy bare string or a rich dict.  In
the dict form, `version` is `dict.get("version")` and `git_info` is the
optional `"git_info"` entry, itself carrying the optional
`"git_revision"` entry. -/
inductive PackageInfo where
  | str (version : String)
  | dict (version : Option String) (git_info : Option (Option String))
deriving DecidableEq, Repr

/-- A `packages` mapping, package name to info; `None` values record
packages that could not be found.  A Python `dict.get` returns `None`
both for an absent key and for a key stored as `None`. -/
abbrev PackageSnapshot := List (String × Option PackageInfo)

/-- `dict.get(package)`: first matching key's value, flattened with the
absent-key `None`. -/
def pyGet (m : PackageSnapshot) (k : String) : Option PackageInfo :=
  match m.find? (fun kv => kv.1 = k) with
  | some kv => kv.2
  | none => none

/-- `extract_version_string` from `track_packages.py`: handles `None`,
legacy strings and rich dicts uniformly. -/
def extract_version_string : Option PackageInfo → Option String
  | none => none
  | some (PackageInfo.str s) => some s
  | some (PackageInfo.dict v _) => v

/-- `extract_git_revision` from `track_packages.py`: only a rich dict
with a `"git_info"` key can carry a revision. -/
def extract_git_revision : Option PackageInfo → Option String
  | some (PackageInfo.dict _ (some g)) => g
  | _ => none

/-- `format_version_with_git` from `track_packages.py`: version plus the
first 8 characters of the git hash when a (truthy, i.e. nonempty)
revision is present; a missing version renders as `(missing)`. -/
def format_version_with_git (package_info : Option PackageInfo) : String :=
  match extract_version_string package_info with
  | none => "(missing)"
  | some version =>
    match extract_git_revision package_info with
    | some git_revision =>
      if git_revision.isEmpty then version
      else version ++ " (" ++ git_revision.take 8 ++ ")"
    | none => version

/-- The `PACKAGE_METADATA` table of `track_packages.py`, reduced to the
`github` field: every entry has `type` `releases`, so
`generate_package_diff_link` always uses the first tag format
`v{old}...v{new}`. -/
def PACKAGE_METADATA : List (String × String) :=
  [("numpy", "numpy/numpy"), ("pandas", "pandas-dev/pandas"),
   ("matplotlib", "matplotlib/matplotlib"), ("scipy", "scipy/scipy"),
   ("scikit-learn", "scikit-learn/scikit-learn"), ("requests", "psf/requests"),
   ("django", "django/django"), ("flask", "pallets/flask"),
   ("pytest", "pytest-dev/pytest"), ("hypothesis", "HypothesisWorks/hypothesis"),
   ("xarray", "pydata/xarray"), ("dask", "dask/dask"),
   ("jupyterlab", "jupyterlab/jupyterlab"), ("notebook", "jupyter/notebook"),
   ("ipython", "ipython/ipython"), ("tensorflow", "tensorflow/tensorflow"),
   ("torch", "pytorch/pytorch"), ("fastapi", "tiangolo/fastapi"),
   ("pydantic", "pydantic/pydantic"), ("sqlalchemy", "sqlalchemy/sqlalchemy"),
   ("black", "psf/black"), ("mypy", "python/mypy"), ("ruff", "astral-sh/ruff")]

/-- `generate_package_diff_link` from `track_packages.py`: a GitHub
compare URL in the `v{old}...v{new}` tag format for known packages. -/
def generate_package_diff_link (package_name old_version new_version : String) :
    Option String :=
  match (PACKAGE_METADATA.find? (fun kv => kv.1 = package_name)) with
  | none => none
  | some kv =>
    some ("https://github.com/" ++ kv.2 ++ "/compare/v" ++ old_version
      ++ "...v" ++ new_version)

/-- The per-package body of `get_package_changes`' loop: the change line
appended for one package, or `none` when the loop appends nothing. -/
def packageChange (package : String) (current_info previous_info : Option PackageInfo) :
    Option String :=
  let current_version := extract_version_string current_info
  let previous_version := extract_version_string previous_info
  match current_version, previous_version with
  | none, none => none
  | none, some _ =>
    some ("- " ++ package ++ ": " ++ format_version_with_git previous_info
      ++ " → (removed)")
  | some _, none =>
    some ("- " ++ package ++ ": (new) → " ++ format_version_with_git current_info)
  | some cv, some pv =>
    if cv ≠ pv ∨ extract_git_revision current_info ≠ extract_git_revision previous_info then
      let prev_display := format_version_with_git previous_info
      let curr_display := format_version_with_git current_info
      if cv ≠ pv then
        match generate_package_diff_link package pv cv with
        | some diff_link =>
          some ("- [" ++ package ++ ": " ++ prev_display ++ " → " ++ curr_display
            ++ "](" ++ diff_link ++ ")")
        | none => some ("- " ++ package ++ ": " ++ prev_display ++ " → " ++ curr_display)
      else
        some ("- " ++ package ++ ": " ++ prev_display ++ " → " ++ curr_display
          ++ " (git revision changed)")
    else none

/-- Lexicographic comparison of code-point sequences: exactly how Python
compares two strings. -/
def strLeChars : List Char → List Char → Bool
  | [], _ => true
  | _ :: _, [] => false
  | a :: as, b :: bs => if a = b then strLeChars as bs else decide (a < b)

/-- Insertion into a sorted list of strings (code-point order, as Python
compares strings). -/
def insertSorted (x : String) : List String → List String
  | [] => [x]
  | y :: ys => if strLeChars x.data y.data then x :: y :: ys else y :: insertSorted x ys

/-- Insertion sort over strings: `sorted()` in code-point order. -/
def sortStrings : List String → List String
  | [] => []
  | x :: xs => insertSorted x (sortStrings xs)

/-- `sorted(set(current) | set(previous))`: the union of the key sets in
lexicographic (code-point) order, each key once. -/
def sortedUnionKeys (current_packages previous_packages : PackageSnapshot) :
    List String :=
  sortStrings ((current_packages.map Prod.fst ++ previous_packages.map Prod.fst).dedup)

/-- `get_package_changes` from `track_packages.py`: iterate the sorted
union of package names, appending at most one change line per package. -/
def get_package_changes (current_packages previous_packages : PackageSnapshot) :
    List String :=
  (sortedUnionKeys current_packages previous_packages).filterMap
    (fun package =>
      packageChange package (pyGet current_packages package)
        (pyGet previous_packages package))

/-! ## Run snapshots, the bisection resolver and snapshot creation
(`track_packages.py`) -/

/-- The `git` sub-dict of a run snapshot, as built by `get_git_info`. -/
structure GitInfo where
  commit_hash : String
  commit_hash_short : String
  commit_message : String
  commit_author : String
  commit_date : String
deriving DecidableEq, Repr

/-- The run-snapshot dict built by `create_bisect_data` and read back by
the resolver. -/
structure BisectData where
  workflow_run_id : String
  timestamp : String
  python_version : String
  packages : PackageSnapshot
  failed_tests : List String
  test_status : String
  git : GitInfo
deriving DecidableEq, Repr

/-- The inner loop of `find_last_successful_run_for_tests` for one test:
walk the runs (already sorted newest first) and take the first whose
`failed_tests` does not contain the test; `None` when every run contains
it. -/
def lastSuccessFor (all_runs : List BisectData) (test : String) : Option BisectData :=
  match all_runs with
  | [] => none
  | run :: rest =>
    if test ∈ run.failed_tests then lastSuccessFor rest test else some run

/-- `find_last_successful_run_for_tests` from `track_packages.py`, after
the git/JSON retrieval and the newest-first sort: the per-test mapping,
one entry per currently failing test. -/
def find_last_successful_run_for_tests (all_runs : List BisectData)
    (failed_tests : List String) : List (String × Option BisectData) :=
  failed_tests.map (fun test => (test, lastSuccessFor all_runs test))

/-! ### Snapshot creation (`create_bisect_data`) -/

/-- One parsed line of the pytest log as `extract_failed_tests_from_log`
reads it: the `$report_type`, `outcome` and `nodeid` entries of the JSON
record, each possibly absent.  A line whose JSON does not parse is
skipped by the source (`json.JSONDecodeError`), modelled as `none`. -/
structure LogRecord where
  report_type : Option String
  outcome : Option String
  nodeid : Option String
deriving DecidableEq, Repr

/-- `extract_failed_tests_from_log` from `track_packages.py`, over the
parsed lines of the log file: keep the `nodeid` of every `TestReport` or
`CollectReport` record whose outcome is `failed` and whose nodeid is
truthy (present and nonempty). -/
def extract_failed_tests_from_log (lines : List (Option LogRecord)) : List String :=
  lines.filterMap (fun line =>
    match line with
    | none => none
    | some record =>
      match record.nodeid with
      | some nodeid =>
        if (record.report_type = some "TestReport"
              ∨ record.report_type = some "CollectReport")
            ∧ record.outcome = some "failed" ∧ ¬nodeid.isEmpty
        then some nodeid else none
      | none => none)

/-- `create_bisect_data` from `track_packages.py`, with the I/O
boundaries as parameters: `log` is the log file's parsed lines (`none`
when `log_path` is unset or the file does not exist), and the package
versions, the python version and the git info stand for the values the
collaborator calls return.  `failed_tests` is extracted from the log and
`test_status` is `"failed" if failed_tests else "passed"`. -/
def create_bisect_data (workflow_run_id timestamp python_version : String)
    (package_versions : PackageSnapshot) (log : Option (List (Option LogRecord)))
    (git : GitInfo) : BisectData :=
  let failed_tests :=
    match log with
    | some lines => extract_failed_tests_from_log lines
    | none => []
  { workflow_run_id := workflow_run_id
    timestamp := timestamp
    python_version := python_version
    packages := package_versions
    failed_tests := failed_tests
    test_status := if failed_tests.isEmpty then "passed" else "failed"
    git := git }

/-! ### Concrete snapshots for the resolver scenario -/

/-- Placeholder git info for the concrete scenario runs. -/
def scenarioGit : GitInfo :=
  ⟨"0000000000000000000000000000000000000000", "00000000", "msg", "author", "date"⟩

/-- Scenario run T1 (oldest): test `x` failing. -/
def runT1 : BisectData :=
  ⟨"T1", "2024-01-01T00:00:00", "3.11.0", [], ["x"], "failed", scenarioGit⟩

/-- Scenario run T2: no failing tests. -/
def runT2 : BisectData :=
  ⟨"T2", "2024-01-02T00:00:00", "3.11.0", [], [], "passed", scenarioGit⟩

/-- Scenario run T3 (newest): test `x` failing. -/
def runT3 : BisectData :=
  ⟨"T3", "2024-01-03T00:00:00", "3.11.0", [], ["x"], "failed", scenarioGit⟩

/-! # Theorems -/

/-! ## C4 — the collection-error bypass -/

/-- C4: for every budget, when the failing-report list is exactly one
`CollectionError`, `main`'s selection branch bypasses all compression
strategies and renders the fixed collection-error template, whatever the
rendered template's length. -/
theorem collection_error_bypass (e : CollectionError) (max_chars : Nat)
    (py_version : String) :
    selectMessage [Report.collErr e] max_chars py_version =
      Except.ok (format_collection_error e py_version) := rfl

/-! ## C9 — the snapshot status invariant -/

/-- C9: every snapshot built by `create_bisect_data` has
`test_status = "failed"` exactly when its `failed_tests` list is
non-empty, for every combination of packages, log contents and captured
inputs. -/
theorem create_bisect_data_status_invariant
    (workflow_run_id timestamp python_version : String)
    (package_versions : PackageSnapshot) (log : Option (List (Option LogRecord)))
    (git : GitInfo) :
    (create_bisect_data workflow_run_id timestamp python_version package_versions
        log git).test_status = "failed" ↔
      (create_bisect_data workflow_run_id timestamp python_version package_versions
        log git).failed_tests ≠ [] := by
  simp only [create_bisect_data]
  cases hl : (match log with
      | some lines => extract_failed_tests_from_log lines
      | none => ([] : List String)) with
  | nil => simp
  | cons a l => simp

/-! ## C2 — the bisection resolver -/

/-- `lastSuccessFor` is the leftmost-run search the spec describes. -/
theorem lastSuccessFor_eq_find (all_runs : List BisectData) (test : String) :
    lastSuccessFor all_runs test =
      all_runs.find? (fun run => !(decide (test ∈ run.failed_tests))) := by
  induction all_runs with
  | nil => rfl
  | cons run rest ih =>
    by_cases h : test ∈ run.failed_tests
    · simp [lastSuccessFor, h, List.find?_cons, ih]
    · simp [lastSuccessFor, h, List.find?_cons]

/-- C2: the resolver maps each failing test id to the first (newest) run
whose `failed_tests` does not contain it — `none` exactly when every run
contains it — and on the concrete newest-first history
`[T3(failed:[x]), T2(failed:[]), T1(failed:[x])]` it maps `x` to T2. -/
theorem find_last_successful_run_spec :
    (∀ (all_runs : List BisectData) (failed_tests : List String),
        find_last_successful_run_for_tests all_runs failed_tests =
          failed_tests.map (fun test =>
            (test, all_runs.find? (fun run => !(decide (test ∈ run.failed_tests))))))
    ∧ (∀ (all_runs : List BisectData) (test : String),
        lastSuccessFor all_runs test = none ↔
          ∀ run ∈ all_runs, test ∈ run.failed_tests)
    ∧ find_last_successful_run_for_tests [runT3, runT2, runT1] ["x"]
        = [("x", some runT2)] := by
  refine ⟨?_, ?_, ?_⟩
  · intro all_runs failed_tests
    simp only [find_last_successful_run_for_tests, lastSuccessFor_eq_find]
  · intro all_runs test
    induction all_runs with
    | nil => simp [lastSuccessFor]
    | cons run rest ih =>
      by_cases h : test ∈ run.failed_tests
      · simp [lastSuccessFor, h, ih]
      · simp [lastSuccessFor, h]
  · decide

/-! ## C3 — the git-hash heuristic -/

/-- Whatever `captureHex` returns is a hex run of 7 to 40 characters. -/
theorem captureHex_spec (rest : List Char) (r : String)
    (h : captureHex rest = some r) :
    7 ≤ r.length ∧ r.length ≤ 40 ∧ r.data.all isHexCI = true := by
  simp only [captureHex] at h
  split at h
  · rename_i hlen
    cases h
    have hdata : (String.mk ((rest.takeWhile isHexCI).take 40)).data
        = (rest.takeWhile isHexCI).take 40 := rfl
    have hlength : (String.mk ((rest.takeWhile isHexCI).take 40)).length
        = ((rest.takeWhile isHexCI).take 40).length := rfl
    refine ⟨?_, ?_, ?_⟩
    · rw [hlength, List.length_take]
      omega
    · rw [hlength, List.length_take]
      omega
    · rw [hdata, List.all_eq_true]
      intro c hc
      exact List.mem_takeWhile_imp (List.take_subset 40 _ hc)
  · cases h

/-- Whatever a single-pattern attempt returns came out of `captureHex`. -/
theorem matchPat_from_captureHex (l : List Char) (r : String)
    (h : matchDotG l = some r ∨ matchPlusG l = some r ∨ matchBareG l = some r) :
    ∃ rest, captureHex rest = some r := by
  rcases h with h | h | h
  · match l with
    | [] => simp [matchDotG] at h
    | [c1] => simp [matchDotG] at h
    | c1 :: c2 :: rest =>
      simp only [matchDotG] at h
      split at h
      · exact ⟨rest, h⟩
      · cases h
  · match l with
    | [] => simp [matchPlusG] at h
    | [c1] => simp [matchPlusG] at h
    | c1 :: c2 :: rest =>
      simp only [matchPlusG] at h
      split at h
      · exact ⟨rest, h⟩
      · cases h
  · match l with
    | [] => simp [matchBareG] at h
    | c1 :: rest =>
      simp only [matchBareG] at h
      split at h
      · exact ⟨rest, h⟩
      · cases h

/-- A successful `reSearch` is a successful attempt at some suffix. -/
theorem reSearch_some (m : List Char → Option String) (cs : List Char) (r : String)
    (h : reSearch m cs = some r) : ∃ suffix, m suffix = some r := by
  induction cs with
  | nil => exact ⟨[], h⟩
  | cons c cs ih =>
    simp only [reSearch] at h
    split at h
    · rename_i heq
      cases h
      exact ⟨c :: cs, heq⟩
    · exact ih h

/-- C3: the heuristic returns, for the first of the patterns `.g`, `+g`,
bare `g` (in that order, case-insensitively) that matches anywhere, the
captured hex run — which is always 7 to 40 hex characters, runs shorter
than 7 being rejected — as witnessed by the spec's four examples and the
length/alphabet guarantee on every output. -/
theorem extract_git_hash_spec :
    extract_git_hash_from_version "2.1.0.dev0+123.gabc123d" = some "abc123d"
    ∧ extract_git_hash_from_version "1.0.0" = none
    ∧ extract_git_hash_from_version "1.0.0+gabcdef" = none
    ∧ extract_git_hash_from_version "1.0.0+gabcdef1" = some "abcdef1"
    ∧ ∀ (s r : String), extract_git_hash_from_version s = some r →
        7 ≤ r.length ∧ r.length ≤ 40 ∧ r.data.all isHexCI = true := by
  refine ⟨by decide, by decide, by decide, by decide, ?_⟩
  intro s r h
  simp only [extract_git_hash_from_version] at h
  have hcap : ∃ rest, captureHex rest = some r := by
    split at h
    · rename_i heq
      cases h
      obtain ⟨suffix, hs⟩ := reSearch_some _ _ _ heq
      exact matchPat_from_captureHex suffix r (Or.inl hs)
    · split at h
      · rename_i heq
        cases h
        obtain ⟨suffix, hs⟩ := reSearch_some _ _ _ heq
        exact matchPat_from_captureHex suffix r (Or.inr (Or.inl hs))
      · obtain ⟨suffix, hs⟩ := reSearch_some _ _ _ h
        exact matchPat_from_captureHex suffix r (Or.inr (Or.inr hs))
  obtain ⟨rest, hc⟩ := hcap
  exact captureHex_spec rest r hc

/-! ## C7 — the version diff engine -/

/-- A package whose extracted version and revision agree on both sides
contributes no change line. -/
theorem packageChange_none_of_eq (package : String)
    (current_info previous_info : Option PackageInfo)
    (hv : extract_version_string current_info = extract_version_string previous_info)
    (hr : extract_git_revision current_info = extract_git_revision previous_info) :
    packageChange package current_info previous_info = none := by
  simp only [packageChange, hv, hr]
  cases extract_version_string previous_info with
  | none => rfl
  | some v => simp

/-- C7: `get_package_changes` iterates the union of package names in
lexicographic order, emits nothing for a package whose version and
revision agree on both sides, and in particular returns the empty list
when both snapshots are the same; on a concrete two-package change it
emits the lines in sorted key order. -/
theorem get_package_changes_spec :
    (∀ (package : String) (current_info previous_info : Option PackageInfo),
        extract_version_string current_info = extract_version_string previous_info →
        extract_git_revision current_info = extract_git_revision previous_info →
        packageChange package current_info previous_info = none)
    ∧ (∀ snapshot : PackageSnapshot, get_package_changes snapshot snapshot = [])
    ∧ get_package_changes
        [("zlib", some (PackageInfo.str "2")), ("abc", some (PackageInfo.str "2"))]
        [("zlib", some (PackageInfo.str "1")), ("abc", some (PackageInfo.str "1"))]
        = ["- abc: 1 → 2", "- zlib: 1 → 2"] := by
  refine ⟨packageChange_none_of_eq, ?_, by decide⟩
  intro snapshot
  simp only [get_package_changes]
  rw [List.filterMap_eq_nil_iff]
  intro package _
  exact packageChange_none_of_eq package _ _ rfl rfl

/-! ## C6 — the variant-merge strategy -/

/-- Folding further reports whose key is already collected changes
nothing. -/
theorem bucketKeys_foldl_mem (g : List PreformattedReport)
    (k : String × Option String × String) (hall : ∀ r ∈ g, reportKey r = k)
    (ks : List (String × Option String × String)) (hk : k ∈ ks) :
    g.foldl (fun ks r => if reportKey r ∈ ks then ks else ks ++ [reportKey r]) ks = ks := by
  induction g generalizing ks with
  | nil => rfl
  | cons r rest ih =>
    have hr : reportKey r = k := hall r (List.mem_cons_self r rest)
    simp only [List.foldl_cons, hr, hk, if_pos]
    exact ih (fun r' hr' => hall r' (List.mem_cons_of_mem r hr')) ks hk

/-- A non-empty run of reports sharing one key yields that single
bucket. -/
theorem bucketKeys_all_same (g : List PreformattedReport)
    (k : String × Option String × String) (hne : g ≠ [])
    (hall : ∀ r ∈ g, reportKey r = k) : bucketKeys g = [k] := by
  match g, hne with
  | r :: rest, _ =>
    have hr : reportKey r = k := hall r (List.mem_cons_self r rest)
    simp only [bucketKeys, List.foldl_cons, List.not_mem_nil, if_neg, List.nil_append, hr]
    exact bucketKeys_foldl_mem rest k
      (fun r' hr' => hall r' (List.mem_cons_of_mem r hr')) [k] (List.mem_singleton.mpr rfl)

/-- The bucket of the shared key is the whole run. -/
theorem bucketGroup_all_same (g : List PreformattedReport)
    (k : String × Option String × String) (hall : ∀ r ∈ g, reportKey r = k) :
    bucketGroup g k = g := by
  simp only [bucketGroup]
  rw [List.filter_eq_self]
  intro r hr
  simp [hall r hr]

/-- C6: `merge_variants` groups by `(filepath, name, message)` in
first-seen order; a group of two or more renders one
`[K failing variants]` line, a singleton renders with its variant when
present and plainly otherwise; concretely, two buckets are emitted in
input order (not alphabetical) and two reports differing only in variant
collapse to a `[2 failing variants]` line. -/
theorem merge_variants_spec :
    (∀ (group : List PreformattedReport) (filepath : String)
        (test_name : Option String) (message : String) (max_chars : Nat)
        (py_version : String),
        2 ≤ group.length →
        (∀ r ∈ group, reportKey r = (filepath, test_name, message)) →
        merge_variants group max_chars py_version =
          format_report
            [filepath ++ "::" ++ pyStr test_name ++ "[" ++ toString group.length
              ++ " failing variants]: " ++ message] py_version)
    ∧ (∀ (filepath name variant message : String) (max_chars : Nat)
        (py_version : String),
        merge_variants [⟨filepath, some name, some variant, message⟩] max_chars
            py_version =
          format_report [filepath ++ "::" ++ name ++ "[" ++ variant ++ "]: " ++ message]
            py_version)
    ∧ (∀ (filepath name message : String) (max_chars : Nat) (py_version : String),
        merge_variants [⟨filepath, some name, none, message⟩] max_chars py_version =
          format_report [filepath ++ "::" ++ name ++ ": " ++ message] py_version)
    ∧ merge_variants
        [⟨"b.py", some "t", some "v1", "m"⟩, ⟨"a.py", some "t", some "v2", "m"⟩]
        100 "3.9"
        = format_report ["b.py::t[v1]: m", "a.py::t[v2]: m"] "3.9"
    ∧ merge_variants
        [⟨"f.py", some "t", some "a", "m"⟩, ⟨"f.py", some "t", some "b", "m"⟩]
        100 "3.9"
        = format_report ["f.py::t[2 failing variants]: m"] "3.9" := by
  refine ⟨?_, ?_, ?_, by decide, by decide⟩
  · intro group filepath test_name message max_chars py_version hlen hall
    have hne : group ≠ [] := by
      intro h
      rw [h] at hlen
      simp at hlen
    simp only [merge_variants, bucketKeys_all_same group _ hne hall, List.map_cons,
      List.map_nil, bucketGroup_all_same group _ hall]
    match group, hlen with
    | r1 :: r2 :: t, _ => rfl
  · intro filepath name variant message max_chars py_version
    simp [merge_variants, bucketKeys, bucketGroup, reportKey, format_variant_group, pyStr]
  · intro filepath name message max_chars py_version
    simp [merge_variants, bucketKeys, bucketGroup, reportKey, format_variant_group, pyStr]

/-! ## C1 — the compressor's budget contract -/

/-- Anything `truncate`'s fraction loop returns fits the budget. -/
theorem truncateLoop_fits (reports : List PreformattedReport) (max_chars : Nat)
    (py_version : String) (fractions : List (Nat × Nat)) (t : String)
    (h : truncateLoop reports max_chars py_version fractions = some t) :
    t.length ≤ max_chars := by
  induction fractions with
  | nil => cases h
  | cons fr rest ih =>
    obtain ⟨num, den⟩ := fr
    simp only [truncateLoop] at h
    split at h
    · cases h
      assumption
    · exact ih h

/-- Anything `truncate` returns fits the budget. -/
theorem truncate_fits (reports : List PreformattedReport) (max_chars : Nat)
    (py_version : String) (t : String)
    (h : truncate reports max_chars py_version = some t) : t.length ≤ max_chars :=
  truncateLoop_fits reports max_chars py_version truncate_fractions t h

/-- C1 counterexample: with no reports and budget 0, no strategy's
rendering fits, yet `compressed_report` still returns the summary
rendering — a string longer than the budget — rather than none.  (The
source's final `return summarize(...)` has no budget check, and the
function has no path returning `None`.) -/
theorem compressed_report_counterexample :
    compressed_report [] 0 "3.11" = summarize [] "3.11"
    ∧ 0 < (compressed_report [] 0 "3.11").length := by
  constructor
  · rfl
  · decide

/-- C1 (amended): `compressed_report` returns a string within the budget
whenever the full listing, the variant merge, a truncation fraction, or
the minimal summary fits; when nothing fits it still returns the minimal
summary rendering unconditionally (never none), and only that final
fallback can exceed the budget. -/
theorem compressed_report_budget (reports : List PreformattedReport)
    (max_chars : Nat) (py_version : String) :
    (((format_report (reports.map format_summary) py_version).length ≤ max_chars
        ∨ (merge_variants reports max_chars py_version).length ≤ max_chars
        ∨ (truncate reports max_chars py_version).isSome = true
        ∨ (summarize reports py_version).length ≤ max_chars) →
      (compressed_report reports max_chars py_version).length ≤ max_chars)
    ∧ (max_chars < (compressed_report reports max_chars py_version).length →
        compressed_report reports max_chars py_version = summarize reports py_version) := by
  simp only [compressed_report]
  split
  · rename_i hfull
    constructor
    · intro _
      exact hfull
    · intro hgt
      omega
  · rename_i hfull
    split
    · rename_i hmv
      constructor
      · intro _
        exact hmv
      · intro hgt
        omega
    · rename_i hmv
      split
      · rename_i t htr
        split
        · rename_i hfit
          constructor
          · intro _
            exact hfit
          · intro hgt
            omega
        · rename_i hfit
          exact absurd (truncate_fits reports max_chars py_version t htr) hfit
      · rename_i htr
        constructor
        · intro hd
          rcases hd with h | h | h | h
          · omega
          · omega
          · rw [htr] at h
            simp at h
          · exact h
        · intro _
          rfl

/-! ## C10 — the compressor is total only on attribute-bearing reports -/

/-- The attribute-access traversal succeeds exactly on lists whose
elements are all `PreformattedReport`s. -/
theorem mapReportAttrs_ok_iff (reports : List Report) :
    (∃ rs, mapReportAttrs reports = Except.ok rs) ↔
      ∀ r ∈ reports, ∃ p, r = Report.pre p := by
  induction reports with
  | nil =>
    constructor
    · intro _ r hr
      cases hr
    · intro _
      exact ⟨[], rfl⟩
  | cons r rest ih =>
    cases r with
    | pre p =>
      simp only [mapReportAttrs, reportAttrs]
      constructor
      · intro ⟨rs, hrs⟩ r' hr'
        rcases List.mem_cons.mp hr' with h | h
        · exact ⟨p, by rw [h]⟩
        · split at hrs
          · cases hrs
          · rename_i rs' heq
            exact ih.mp ⟨rs', heq⟩ r' h
      · intro hall
        obtain ⟨rs', hrs'⟩ := ih.mpr (fun r' hr' => hall r' (List.mem_cons_of_mem _ hr'))
        exact ⟨p :: rs', by rw [hrs']⟩
    | collErr e =>
      simp only [mapReportAttrs, reportAttrs]
      constructor
      · intro ⟨rs, hrs⟩
        cases hrs
      · intro hall
        obtain ⟨p, hp⟩ := hall (Report.collErr e) (List.mem_cons_self _ _)
        cases hp

/-- A list containing a `CollectionError` makes the traversal raise. -/
theorem mapReportAttrs_error_of_collErr (reports : List Report)
    (h : ∃ e, Report.collErr e ∈ reports) :
    ∃ msg, mapReportAttrs reports = Except.error msg := by
  obtain ⟨e, hmem⟩ := h
  cases hres : mapReportAttrs reports with
  | error msg => exact ⟨msg, rfl⟩
  | ok rs =>
    obtain ⟨p, hp⟩ := (mapReportAttrs_ok_iff reports).mp ⟨rs, hres⟩ _ hmem
    cases hp

/-- C10: the collection-error bypass needs exactly a one-element
`CollectionError` list; a list of two or more elements containing a
`CollectionError` reaches the compressor, whose very first rendering step
accesses attributes the `CollectionError` lacks and raises — and in
general the compressor succeeds exactly on lists whose elements are all
`PreformattedReport` values. -/
theorem compressed_report_total_iff (reports : List Report) (max_chars : Nat)
    (py_version : String) :
    (2 ≤ reports.length → (∃ e, Report.collErr e ∈ reports) →
      ∃ msg, selectMessage reports max_chars py_version = Except.error msg)
    ∧ ((∃ out, compressed_reportE reports max_chars py_version = Except.ok out) ↔
        ∀ r ∈ reports, ∃ p, r = Report.pre p) := by
  constructor
  · intro hlen hcoll
    obtain ⟨msg, hmsg⟩ := mapReportAttrs_error_of_collErr reports hcoll
    have hsel : selectMessage reports max_chars py_version =
        compressed_reportE reports max_chars py_version := by
      match reports, hlen with
      | a :: b :: t, _ => cases a <;> rfl
    rw [hsel]
    exact ⟨msg, by simp [compressed_reportE, hmsg]⟩
  · cases hres : mapReportAttrs reports with
    | error msg =>
      simp only [compressed_reportE, hres]
      constructor
      · intro ⟨out, hout⟩
        cases hout
      · intro hall
        obtain ⟨rs, hrs⟩ := (mapReportAttrs_ok_iff reports).mpr hall
        rw [hres] at hrs
        cases hrs
    | ok rs =>
      simp only [compressed_reportE, hres]
      constructor
      · intro _
        exact (mapReportAttrs_ok_iff reports).mp ⟨rs, hres⟩
      · intro _
        exact ⟨compressed_report rs max_chars py_version, rfl⟩

/-! ## C5 — the node-id grammar -/

/-- A successful variant-group match means the whole remainder is
newline-free. -/
theorem tryBracket_some_noNL (l v : List Char) (h : tryBracket l = some v) :
    l.all (· != '\n') = true := by
  match l with
  | [] => cases h
  | c :: more =>
    simp only [tryBracket] at h
    split at h
    · rename_i hcond
      cases h
      simp only [Bool.and_eq_true, decide_eq_true_eq, Bool.not_eq_eq_eq_not,
        Bool.not_true, List.isEmpty_eq_false] at hcond
      obtain ⟨⟨⟨hc, hlast⟩, hne⟩, hall⟩ := hcond
      subst hc
      have hmore : more ≠ [] := by
        intro h0
        rw [h0] at hlast
        cases hlast
      have hrec : more.dropLast ++ [more.getLast hmore] = more :=
        List.dropLast_append_getLast hmore
      have hlastval : more.getLast hmore = ']' := by
        have := List.getLast?_eq_getLast more hmore
        rw [hlast] at this
        exact (Option.some.injEq _ _).mp this.symm
      simp only [List.all_cons, Bool.and_eq_true]
      refine ⟨by decide, ?_⟩
      rw [← hrec, List.all_append]
      simp [hall, hlastval]
    · cases h

/-- The name-plus-optional-variant tail matches exactly the nonempty
newline-free remainders (given the name captured so far). -/
theorem matchNodeidTail_isSome (t : List Char) :
    ∀ acc : List Char,
      (matchNodeidTail acc t).isSome = true ↔
        (t.all (· != '\n') = true ∧ (acc ≠ [] ∨ t ≠ [])) := by
  induction t with
  | nil =>
    intro acc
    simp only [matchNodeidTail]
    cases acc with
    | nil => simp
    | cons a as => simp
  | cons c rest ih =>
    intro acc
    simp only [matchNodeidTail]
    cases acc with
    | nil =>
      simp only [List.isEmpty_nil, if_true]
      by_cases hc : c = '\n'
      · subst hc
        simp
      · rw [if_neg hc]
        rw [ih [c]]
        simp [hc]
    | cons a as =>
      simp only [List.isEmpty_cons, Bool.false_eq_true, if_false]
      cases hb : tryBracket (c :: rest) with
      | some v =>
        have hnl := tryBracket_some_noNL _ _ hb
        simp [hnl]
      | none =>
        by_cases hc : c = '\n'
        · subst hc
          simp
        · rw [if_neg hc]
          rw [ih (c :: a :: as)]
          simp [hc]

/-- The leading-`c` condition in a split existence is vacuous. -/
theorem exists_split_cons_cond (c : Char) (acc : List Char) (l : List Char) :
    (∃ f rest, l = f ++ ':' :: ':' :: rest ∧ ((c :: acc) ≠ [] ∨ f ≠ [])
        ∧ rest ≠ [] ∧ f.all (· != '\n') = true ∧ rest.all (· != '\n') = true)
    ↔ (∃ f rest, l = f ++ ':' :: ':' :: rest
        ∧ rest ≠ [] ∧ f.all (· != '\n') = true ∧ rest.all (· != '\n') = true) := by
  constructor
  · rintro ⟨f, rest, h1, -, h3, h4, h5⟩
    exact ⟨f, rest, h1, h3, h4, h5⟩
  · rintro ⟨f, rest, h1, h3, h4, h5⟩
    exact ⟨f, rest, h1, Or.inl (by simp), h3, h4, h5⟩

/-- Peeling one character off the front of a `::`-split existence. -/
theorem split_exists_shift (c1 c2 : Char) (cs : List Char) (acc : List Char) :
    (∃ f rest, c1 :: c2 :: cs = f ++ ':' :: ':' :: rest ∧ (acc ≠ [] ∨ f ≠ [])
        ∧ rest ≠ [] ∧ f.all (· != '\n') = true ∧ rest.all (· != '\n') = true)
    ↔ ((c1 = ':' ∧ c2 = ':' ∧ acc ≠ [] ∧ cs ≠ [] ∧ cs.all (· != '\n') = true)
        ∨ (c1 ≠ '\n' ∧ ∃ f rest, c2 :: cs = f ++ ':' :: ':' :: rest
            ∧ rest ≠ [] ∧ f.all (· != '\n') = true ∧ rest.all (· != '\n') = true)) := by
  constructor
  · rintro ⟨f, rest, heq, hcond, hrest, hnf, hnr⟩
    cases f with
    | nil =>
      simp only [List.nil_append] at heq
      injection heq with h1 heq2
      injection heq2 with h2 h3
      subst h3
      rcases hcond with hacc | hf
      · exact Or.inl ⟨h1, h2, hacc, hrest, hnr⟩
      · exact absurd rfl hf
    | cons a f' =>
      injection heq with h1 heq2
      subst h1
      simp only [List.all_cons, Bool.and_eq_true, bne_iff_ne, ne_eq] at hnf
      exact Or.inr ⟨hnf.1, f', rest, heq2, hrest, hnf.2, hnr⟩
  · rintro (⟨h1, h2, h3, h4, h5⟩ | ⟨h1, f, rest, heq, hrest, hnf, hnr⟩)
    · subst h1
      subst h2
      exact ⟨[], cs, by simp, Or.inl h3, h4, by simp, h5⟩
    · refine ⟨c1 :: f, rest, by simp [heq], Or.inr (by simp), hrest, ?_, hnr⟩
      simp only [List.all_cons, Bool.and_eq_true, bne_iff_ne, ne_eq]
      exact ⟨h1, hnf⟩

/-- `splitNodeid` succeeds exactly on the inputs admitting a newline-free
split around a `::`, with a nonempty part on each side (the left part may
be empty only when characters are already accumulated). -/
theorem splitNodeid_isSome (cs : List Char) :
    ∀ acc : List Char,
      (splitNodeid acc cs).isSome = true ↔
        ∃ f rest, cs = f ++ ':' :: ':' :: rest ∧ (acc ≠ [] ∨ f ≠ [])
          ∧ rest ≠ [] ∧ f.all (· != '\n') = true ∧ rest.all (· != '\n') = true := by
  induction cs with
  | nil =>
    intro acc
    simp only [splitNodeid]
    constructor
    · intro h
      simp at h
    · rintro ⟨f, rest, heq, -, -, -, -⟩
      exact absurd heq.symm (by simp)
  | cons c1 cs' ih =>
    intro acc
    cases cs' with
    | nil =>
      constructor
      · intro h
        simp [splitNodeid] at h
      · rintro ⟨f, rest, heq, -, -, -, -⟩
        have hlen := congrArg List.length heq
        simp [List.length_append] at hlen
        omega
    | cons c2 rest' =>
      rw [split_exists_shift c1 c2 rest' acc]
      by_cases hcond : c1 = ':' ∧ c2 = ':' ∧ acc ≠ []
      · obtain ⟨h1, h2, h3⟩ := hcond
        have hb : (decide (c1 = ':') && decide (c2 = ':') && !acc.isEmpty) = true := by
          simp [h1, h2, h3]
        simp only [splitNodeid, hb, if_true]
        cases hm : matchNodeidTail [] rest' with
        | some nv =>
          have hsome : (matchNodeidTail [] rest').isSome = true := by
            rw [hm]
            rfl
          rw [matchNodeidTail_isSome rest' []] at hsome
          have hrest : rest' ≠ [] := by
            rcases hsome.2 with h | h
            · exact absurd rfl h
            · exact h
          constructor
          · intro _
            exact Or.inl ⟨h1, h2, h3, hrest, hsome.1⟩
          · intro _
            rfl
        | none =>
          have hnone : ¬((matchNodeidTail [] rest').isSome = true) := by
            rw [hm]
            simp
          rw [matchNodeidTail_isSome rest' []] at hnone
          have hc1 : ¬(c1 = '\n') := by
            rw [h1]
            decide
          rw [if_neg hc1, ih (c1 :: acc), exists_split_cons_cond]
          constructor
          · intro hx
            exact Or.inr ⟨hc1, hx⟩
          · rintro (⟨-, -, -, h4, h5⟩ | ⟨-, hx⟩)
            · exact absurd ⟨h5, Or.inr h4⟩ hnone
            · exact hx
      · have hb : ¬((decide (c1 = ':') && decide (c2 = ':') && !acc.isEmpty) = true) := by
          intro hb'
          simp only [Bool.and_eq_true, decide_eq_true_eq, Bool.not_eq_eq_eq_not,
            Bool.not_true, List.isEmpty_eq_false] at hb'
          exact hcond ⟨hb'.1.1, hb'.1.2, hb'.2⟩
        simp only [splitNodeid, if_neg hb]
        by_cases hc1 : c1 = '\n'
        · rw [if_pos hc1]
          constructor
          · intro h
            simp at h
          · rintro (⟨h1, h2, h3, -, -⟩ | ⟨h1, -⟩)
            · exact absurd ⟨h1, h2, h3⟩ hcond
            · exact absurd hc1 h1
        · rw [if_neg hc1, ih (c1 :: acc), exists_split_cons_cond]
          constructor
          · intro hx
            exact Or.inr ⟨hc1, hx⟩
          · rintro (⟨h1, h2, h3, -, -⟩ | ⟨-, hx⟩)
            · exact absurd ⟨h1, h2, h3⟩ hcond
            · exact hx

/-- C5 counterexample: `"invalid_nodeid"` is a bare filepath — it
contains no `::` (no `:` at all) — so under the claimed grammar it is a
valid collection-level id, yet `parse_nodeid` rejects it with
`ValueError` (exactly what the repository's own
`test_parse_nodeid_invalid` expects). -/
theorem parse_nodeid_counterexample :
    "invalid_nodeid".data.all (· != ':') = true
    ∧ (parse_nodeid "invalid_nodeid").isOk = false := by
  decide

/-- C5 (amended): `parse_nodeid` succeeds exactly on the newline-free
strings of the form `filepath ++ "::" ++ tail` with both parts nonempty
(the tail is the name, optionally ending in a bracketed variant); a bare
filepath with no `::` is rejected with a parse error — the bare-filepath
collection-level id is handled by the `CollectReport` preformatter, not
by `parse_nodeid`. -/
theorem parse_nodeid_ok_iff (s : String) :
    (parse_nodeid s).isOk = true ↔
      ∃ f rest : List Char, s.data = f ++ ':' :: ':' :: rest ∧ f ≠ [] ∧ rest ≠ []
        ∧ f.all (· != '\n') = true ∧ rest.all (· != '\n') = true := by
  have hok : (parse_nodeid s).isOk = (splitNodeid [] s.data).isSome := by
    cases hs : splitNodeid [] s.data with
    | some v =>
      obtain ⟨f, n, v'⟩ := v
      simp [parse_nodeid, hs, Except.isOk, Except.toBool]
    | none => simp [parse_nodeid, hs, Except.isOk, Except.toBool]
  rw [hok, splitNodeid_isSome s.data []]
  constructor
  · rintro ⟨f, rest, h1, h2, h3, h4, h5⟩
    rcases h2 with h2 | h2
    · exact absurd rfl h2
    · exact ⟨f, rest, h1, h2, h3, h4, h5⟩
  · rintro ⟨f, rest, h1, h2, h3, h4, h5⟩
    exact ⟨f, rest, h1, Or.inr h2, h3, h4, h5⟩

/-! ## C8 — control-sequence stripping -/

theorem stripAnsiAux_cons_esc (rest : List Char) :
    stripAnsiAux ('\x1b' :: rest) =
      match matchSeq rest with
      | some r => stripAnsiAux r
      | none => '\x1b' :: stripAnsiAux rest := by
  rw [stripAnsiAux]
  simp only [reduceIte]
  split <;> rename_i heq <;> rw [heq]

theorem stripAnsiAux_cons_ne (c : Char) (rest : List Char) (h : c ≠ '\x1b') :
    stripAnsiAux (c :: rest) = c :: stripAnsiAux rest := by
  rw [stripAnsiAux]
  simp [h]

theorem isIntermediateByte_not_param (c : Char) (h : isIntermediateByte c = true) :
    isParameterByte c = false := by
  simp only [isIntermediateByte, Bool.and_eq_true, decide_eq_true_eq] at h
  simp only [isParameterByte, Bool.and_eq_false_iff, decide_eq_false_iff_not]
  omega

theorem isFinalByte_not_param (c : Char) (h : isFinalByte c = true) :
    isParameterByte c = false := by
  simp only [isFinalByte, Bool.and_eq_true, decide_eq_true_eq] at h
  simp only [isParameterByte, Bool.and_eq_false_iff, decide_eq_false_iff_not]
  omega

theorem isFinalByte_not_intermediate (c : Char) (h : isFinalByte c = true) :
    isIntermediateByte c = false := by
  simp only [isFinalByte, Bool.and_eq_true, decide_eq_true_eq] at h
  simp only [isIntermediateByte, Bool.and_eq_false_iff, decide_eq_false_iff_not]
  omega

theorem dropWhile_append_of_all {p : Char → Bool} (xs ys : List Char)
    (h : xs.all p = true) : List.dropWhile p (xs ++ ys) = List.dropWhile p ys := by
  induction xs with
  | nil => simp
  | cons x xs ih =>
    simp only [List.all_cons, Bool.and_eq_true] at h
    simp [List.dropWhile_cons, h.1, ih h.2]

theorem stripAnsiAux_no_esc (cs : List Char) (h : cs.all (· != '\x1b') = true) :
    stripAnsiAux cs = cs := by
  induction cs with
  | nil => rw [stripAnsiAux]
  | cons c rest ih =>
    simp only [List.all_cons, Bool.and_eq_true, bne_iff_ne, ne_eq] at h
    rw [stripAnsiAux_cons_ne c rest h.1, ih h.2]

theorem matchSeq_csi (ps qs : List Char) (f : Char) (post : List Char)
    (hps : ps.all isParameterByte = true) (hqs : qs.all isIntermediateByte = true)
    (hf : isFinalByte f = true) :
    matchSeq ('[' :: (ps ++ qs ++ f :: post)) = some post := by
  have hd : ((ps ++ (qs ++ f :: post)).dropWhile isParameterByte).dropWhile
      isIntermediateByte = f :: post := by
    rw [dropWhile_append_of_all ps _ hps]
    have h2 : List.dropWhile isParameterByte (qs ++ f :: post) = qs ++ f :: post := by
      cases qs with
      | nil => simp [List.dropWhile_cons, isFinalByte_not_param f hf]
      | cons q qs' =>
        simp only [List.all_cons, Bool.and_eq_true] at hqs
        simp [List.dropWhile_cons, isIntermediateByte_not_param q hqs.1]
    rw [h2, dropWhile_append_of_all qs _ hqs]
    simp [List.dropWhile_cons, isFinalByte_not_intermediate f hf]
  simp [matchSeq, hd, hf]

theorem stripAnsiAux_csi (ps qs : List Char) (f : Char) (post : List Char)
    (hps : ps.all isParameterByte = true) (hqs : qs.all isIntermediateByte = true)
    (hf : isFinalByte f = true) :
    stripAnsiAux ('\x1b' :: '[' :: (ps ++ qs ++ f :: post)) = stripAnsiAux post := by
  rw [stripAnsiAux_cons_esc, matchSeq_csi ps qs f post hps hqs hf]

theorem stripAnsiAux_fe (c : Char) (post : List Char) (hc : isFeByte c = true)
    (hne : c ≠ '[') : stripAnsiAux ('\x1b' :: c :: post) = stripAnsiAux post := by
  rw [stripAnsiAux_cons_esc]
  simp [matchSeq, hne, hc]

theorem all_param_no_esc (ps : List Char) (hps : ps.all isParameterByte = true) :
    ps.all (· != '\x1b') = true := by
  simp only [List.all_eq_true] at hps ⊢
  intro c hc
  have h1 := hps c hc
  simp only [bne_iff_ne, ne_eq]
  intro he
  rw [he] at h1
  simp [isParameterByte] at h1

theorem stripAnsiAux_csi_unterminated (ps : List Char)
    (hps : ps.all isParameterByte = true) :
    stripAnsiAux ('\x1b' :: '[' :: ps) = ps := by
  rw [stripAnsiAux_cons_esc]
  have hd : ps.dropWhile isParameterByte = [] := by
    have h := dropWhile_append_of_all ps ([] : List Char) hps
    simpa using h
  have h1 : matchSeq ('[' :: ps) = some ps := by
    simp [matchSeq, hd]
  rw [h1]
  exact stripAnsiAux_no_esc ps (all_param_no_esc ps hps)

/-- C8 counterexample: `"\x1b["` contains no complete CSI sequence (no
final byte follows) and, under the claim, no Fe sequence either (the
byte after ESC is `[`, which the claim excludes), so the claim says it is
left unchanged — but `strip_ansi` deletes it: the regex's Fe alternative
`[\x40-\x5f]` does not exclude `[`. -/
theorem strip_ansi_counterexample :
    strip_ansi "\x1b[" = "" ∧ strip_ansi "\x1b[" ≠ "\x1b[" := by
  have h1 : stripAnsiAux ['\x1b', '['] = [] := by
    rw [stripAnsiAux_cons_esc]
    have hm : matchSeq ['['] = some [] := rfl
    rw [hm]
    show stripAnsiAux [] = []
    rw [stripAnsiAux]
  have h2 : strip_ansi "\x1b[" = "" := by
    show String.mk (stripAnsiAux "\x1b[".data) = ""
    have hd : "\x1b[".data = ['\x1b', '['] := rfl
    rw [hd, h1]
  refine ⟨h2, ?_⟩
  rw [h2]
  decide

/-- C8 (amended): stripping removes the multi-byte CSI sequences
(`ESC [ params* intermediates* final`) and the single-byte Fe sequences
(ESC plus one byte in `0x40`–`0x5f`), and leaves ESC-free text unchanged;
for `ESC [` the CSI interpretation is preferred, but when no final byte
completes the CSI body the Fe alternative still consumes `ESC [` on its
own (the byte class does not exclude `[`), leaving the parameter bytes
behind. -/
theorem strip_ansi_spec :
    (∀ cs : List Char, cs.all (· != '\x1b') = true →
        strip_ansi (String.mk cs) = String.mk cs)
    ∧ (∀ (ps qs : List Char) (f : Char) (post : List Char),
        ps.all isParameterByte = true → qs.all isIntermediateByte = true →
        isFinalByte f = true →
        strip_ansi (String.mk ('\x1b' :: '[' :: (ps ++ qs ++ f :: post)))
          = strip_ansi (String.mk post))
    ∧ (∀ (c : Char) (post : List Char), isFeByte c = true → c ≠ '[' →
        strip_ansi (String.mk ('\x1b' :: c :: post)) = strip_ansi (String.mk post))
    ∧ (∀ ps : List Char, ps.all isParameterByte = true →
        strip_ansi (String.mk ('\x1b' :: '[' :: ps)) = String.mk ps) := by
  refine ⟨?_, ?_, ?_, ?_⟩
  · intro cs h
    show String.mk (stripAnsiAux cs) = String.mk cs
    rw [stripAnsiAux_no_esc cs h]
  · intro ps qs f post hps hqs hf
    show String.mk (stripAnsiAux ('\x1b' :: '[' :: (ps ++ qs ++ f :: post)))
      = String.mk (stripAnsiAux post)
    rw [stripAnsiAux_csi ps qs f post hps hqs hf]
  · intro c post hc hne
    show String.mk (stripAnsiAux ('\x1b' :: c :: post)) = String.mk (stripAnsiAux post)
    rw [stripAnsiAux_fe c post hc hne]
  · intro ps hps
    show String.mk (stripAnsiAux ('\x1b' :: '[' :: ps)) = String.mk ps
    rw [stripAnsiAux_csi_unterminated ps hps]
